import Mathlib

/-!
# Verification of the CodarMeet signaling server room/session core

Shallow embedding of the Socket.IO signaling server (`src/unnamed/part_000`,
with the delayed-cleanup variant from `src/backend/server.js` for the room
reaping claims).  JavaScript `Map`s become association lists, `Date` values
become `Nat` parameters threaded in by the caller, and each socket event
handler becomes a pure function from server state (plus the event data) to
the successor state together with the list of emitted messages.

Socket.IO emission semantics used throughout:
* `socket.emit(ev, p)` — one message to the handling socket itself;
* `socket.to(room).emit(ev, p)` — one message to every socket joined to
  `room` except the emitting socket;
* `io.to(x).emit(ev, p)` — one message to every socket joined to `x`
  (a socket id names the singleton room of that socket), sender included.
The server calls `socket.join`/`socket.leave` exactly when it adds/removes
the participant record, so the set of sockets joined to a room coincides
with `room.participants`; the emission helpers below inline that fact.

`withRoomLock` (part_000 lines 103-119) chains promises per room id: a
nested acquisition of a lock the current task already holds awaits a promise
that only resolves after the nested call returns, i.e. it never completes.
Handlers that can hit this are modelled as `Option`-valued: `none` means the
handler blocks forever (no reply is sent and the room's lock entry is never
cleared).  Rate limiting (`checkRateLimit`) is wall-clock dependent and is
modelled by a boolean telling whether the limiter fired.
-/

/-- Participant record embedded in a room (part_000 lines 276-285).
`userInfo.email` and the spread of extra `userInfo` fields are not used by
any room logic and are omitted; non-string `name` values are not
representable (they are rejected by `validateUserInfo` anyway). -/
structure Participant where
  id : String
  name : String
  isHost : Bool
  joinedAt : Nat
deriving DecidableEq

/-- Room record (part_000 lines 243-250). -/
structure Room where
  id : String
  participants : List Participant
  host : String
  createdAt : Nat
  maxParticipants : Nat
  lastActivity : Nat
deriving DecidableEq

/-- Connection-registry entry (part_000 lines 183-188). -/
structure User where
  id : String
  currentRoom : Option String
  connectedAt : Nat
  lastActivity : Nat
deriving DecidableEq

/-- The `userInfo` object of a join request; `none` for the `name` field
models an absent property. -/
structure UserInfo where
  name : Option String
deriving DecidableEq

/-- The two global registries (part_000 lines 98-99).  `rooms` and `users`
are JavaScript `Map`s, modelled as insertion-ordered association lists. -/
structure ServerState where
  rooms : List (String × Room)
  users : List (String × User)
deriving DecidableEq

/-- `Map.get` on an association list. -/
def mapGet {α : Type} (m : List (String × α)) (k : String) : Option α :=
  (m.find? (fun e => e.1 == k)).map Prod.snd

/-- `Map.set` for a key known to be present: in-place replacement of every
binding of `k` (the server only updates rooms it just looked up). -/
def mapReplace {α : Type} (m : List (String × α)) (k : String) (v : α) :
    List (String × α) :=
  m.map (fun e => if e.1 == k then (e.1, v) else e)

/-- `Map.delete` on an association list. -/
def mapDelete {α : Type} (m : List (String × α)) (k : String) :
    List (String × α) :=
  m.filter (fun e => e.1 != k)

/-- Outbound event payloads of the part_000 server, tagged by event name. -/
inductive Payload where
  | joinError (code : String)
  | joinedRoom (roomId : String) (participant : Participant) (host : String)
      (participantCount : Nat) (existingParticipants : List Participant)
  | userJoined (participant : Participant) (roomId : String)
      (totalParticipants : Nat)
  | userLeft (participantId : String) (roomId : String)
      (totalParticipants : Nat)
  | hostTransferred (roomId : String) (isHost : Bool)
  | hostChanged (newHostId : String) (roomId : String)
  | relayed (kind : String) (fromId : String) (roomId : String)
  | chatMessage (id : String) (message : String) (fromId : String)
      (timestamp : Nat)
deriving DecidableEq

/-- One emitted message: recipient socket id paired with the payload. -/
abbrev Emission := String × Payload

/-- `socket.to(roomId).emit(...)` where the sockets joined to `roomId` are
exactly the given participant records: everyone but the sender. -/
def emitToRoomExcept (ps : List Participant) (senderId : String)
    (p : Payload) : List Emission :=
  (ps.filter (fun q => q.id != senderId)).map (fun q => (q.id, p))

/-- `io.to(roomId).emit(...)`: every socket joined to the room, sender
included. -/
def emitToRoomAll (ps : List Participant) (p : Payload) : List Emission :=
  ps.map (fun q => (q.id, p))

/-- The allowed room-id alphabet, the regex `[a-zA-Z0-9-_]`
(part_000 line 22). -/
def isAllowedChar (c : Char) : Bool :=
  c.isAlpha || c.isDigit || c == '-' || c == '_'

/-- `validateRoomId` (part_000 lines 15-26).  `none` models a missing or
non-string `roomId` (rejected by the `typeof` guard); the empty string is
falsy in JavaScript and is rejected by the same first guard. -/
def validateRoomId : Option String → Bool
  | none => false
  | some s =>
    if s == "" then false
    else if s.length < 3 || s.length > 50 then false
    else s.data.all isAllowedChar

/-- `validateUserInfo` (part_000 lines 28-39).  `none` models a missing or
non-object `userInfo`.  An absent or empty `name` is falsy and skips the
length check. -/
def validateUserInfo : Option UserInfo → Bool
  | none => false
  | some ui =>
    match ui.name with
    | none => true
    | some n => if n != "" && n.length > 50 then false else true

/-- Default display name `` `User ${socket.id.substring(0, 6)}` ``
(part_000 line 279). -/
def defaultName (sid : String) : String :=
  "User " ++ sid.take 6

/-- `userInfo?.name || defaultName` (part_000 line 279): an absent or empty
(falsy) name falls back to the default. -/
def participantName (ui : UserInfo) (sid : String) : String :=
  match ui.name with
  | some n => if n == "" then defaultName sid else n
  | none => defaultName sid

/-- `leaveCurrentRoom` (part_000 lines 555-613).  `held` is the set of room
ids whose `withRoomLock` lock is already held by the task running this call;
re-acquiring one of them never completes (`none`).  Returns the new state
and the emissions, in emission order: `user-left` to the remaining members,
then on host hand-off `host-transferred` to the new host (`io.to(newHost.id)`)
and `host-changed` to every room member except the leaver
(`socket.to(roomId)` — the new host is still joined to the room, so it
receives the `host-changed` broadcast as well). -/
def leaveCurrentRoom (st : ServerState) (sid : String) (held : List String) :
    Option (ServerState × List Emission) :=
  match mapGet st.users sid with
  | none => some (st, [])
  | some u =>
    match u.currentRoom with
    | none => some (st, [])
    | some roomId =>
      if roomId ∈ held then none
      else
        match mapGet st.rooms roomId with
        | none => some (st, [])
        | some room =>
          match room.participants.filter (fun p => p.id != sid) with
          | [] =>
            some ({ st with rooms := mapDelete st.rooms roomId,
                            users := mapReplace st.users sid
                              { u with currentRoom := none } }, [])
          | h :: t =>
            if room.host == sid then
              some ({ st with
                  rooms := mapReplace st.rooms roomId
                    { room with participants := { h with isHost := true } :: t,
                                host := h.id },
                  users := mapReplace st.users sid
                    { u with currentRoom := none } },
                emitToRoomExcept (h :: t) sid
                    (Payload.userLeft sid roomId (h :: t).length)
                  ++ [(h.id, Payload.hostTransferred roomId true)]
                  ++ emitToRoomExcept ({ h with isHost := true } :: t) sid
                      (Payload.hostChanged h.id roomId))
            else
              some ({ st with
                  rooms := mapReplace st.rooms roomId
                    { room with participants := h :: t },
                  users := mapReplace st.users sid
                    { u with currentRoom := none } },
                emitToRoomExcept (h :: t) sid
                  (Payload.userLeft sid roomId (h :: t).length))

/-- The `leave-room` handler (part_000 lines 537-539): `leaveCurrentRoom`
invoked at top level, with no room lock held. -/
def leaveRoom (st : ServerState) (sid : String) :
    Option (ServerState × List Emission) :=
  leaveCurrentRoom st sid []

/-- The `disconnect` handler (part_000 lines 542-547): leave, then remove
the connection-registry entry. -/
def disconnect (st : ServerState) (sid : String) :
    Option (ServerState × List Emission) :=
  match leaveCurrentRoom st sid [] with
  | none => none
  | some (st1, ems) =>
    some ({ st1 with users := mapDelete st1.users sid }, ems)

/-- The data of a `join-room` request; `none` models a missing or
non-object `data`. -/
structure JoinData where
  roomId : Option String
  userInfo : Option UserInfo
deriving DecidableEq

/-- The room object created on first join (part_000 lines 243-251). -/
def freshRoom (roomId sid : String) (now : Nat) : Room :=
  { id := roomId, participants := [], host := sid, createdAt := now,
    maxParticipants := 50, lastActivity := now }

/-- The body of the `join-room` critical section after the room has been
created or fetched (part_000 lines 255-319): capacity check, duplicate
check, then append the participant, update the registry and emit
`joined-room` to the joiner and `user-joined` to everyone else.  `st1` and
`ems1` are the state and emissions accumulated by the leave-before-join
step; `rooms2` is the rooms map after the create-if-absent step (the
creation is visible in the error branches exactly as in the source, where
`rooms.set` precedes both checks). -/
def admitToRoom (st1 : ServerState) (ems1 : List Emission) (sid : String)
    (userInfo : Option UserInfo) (roomId : String) (room0 : Room)
    (rooms2 : List (String × Room)) (now : Nat) :
    ServerState × List Emission :=
  if room0.participants.length ≥ room0.maxParticipants then
    ({ st1 with rooms := rooms2 },
      ems1 ++ [(sid, Payload.joinError "ROOM_FULL")])
  else if (room0.participants.find? (fun p => p.id == sid)).isSome then
    ({ st1 with rooms := rooms2 },
      ems1 ++ [(sid, Payload.joinError "ALREADY_IN_ROOM")])
  else
    let participant : Participant :=
      { id := sid,
        name := match userInfo with
          | some ui => participantName ui sid
          | none => defaultName sid,
        isHost := room0.participants.length == 0 || sid == room0.host,
        joinedAt := now }
    let room1 := { room0 with
      participants := room0.participants ++ [participant],
      lastActivity := now }
    ({ rooms := mapReplace rooms2 roomId room1,
       users :=
         match mapGet st1.users sid with
         | some u => mapReplace st1.users sid
             { u with currentRoom := some roomId, lastActivity := now }
         | none => st1.users },
      ems1
      ++ [(sid, Payload.joinedRoom roomId participant room1.host
            room1.participants.length
            (room1.participants.filter (fun p => p.id != sid)))]
      ++ emitToRoomExcept room1.participants sid
            (Payload.userJoined participant roomId
              room1.participants.length))

/-- The `join-room` handler (part_000 lines 194-329).  `rateLimited` is the
result of `checkRateLimit`; `now` is the current time.  The handler takes
`withRoomLock roomId` and, holding it, first runs `leaveCurrentRoom`
(line 238) — if the connection's current room is `roomId` itself this
re-acquisition never completes, hence the `none` result.  Room creation
(lines 242-253) happens before the capacity and duplicate checks, exactly
as in the source. -/
def joinRoom (st : ServerState) (sid : String) (rateLimited : Bool)
    (data : Option JoinData) (now : Nat) :
    Option (ServerState × List Emission) :=
  if rateLimited then
    some (st, [(sid, Payload.joinError "RATE_LIMITED")])
  else
    match data with
    | none => some (st, [(sid, Payload.joinError "INVALID_DATA")])
    | some d =>
      match d.roomId with
      | none => some (st, [(sid, Payload.joinError "INVALID_ROOM_ID")])
      | some roomId =>
        if !(validateRoomId (some roomId)) then
          some (st, [(sid, Payload.joinError "INVALID_ROOM_ID")])
        else if !(validateUserInfo d.userInfo) then
          some (st, [(sid, Payload.joinError "INVALID_USER_INFO")])
        else
          match leaveCurrentRoom st sid [roomId] with
          | none => none
          | some (st1, ems1) =>
            match mapGet st1.rooms roomId with
            | some room0 =>
              some (admitToRoom st1 ems1 sid d.userInfo roomId room0
                st1.rooms now)
            | none =>
              some (admitToRoom st1 ems1 sid d.userInfo roomId
                (freshRoom roomId sid now)
                (st1.rooms ++ [(roomId, freshRoom roomId sid now)]) now)

/-- The data of an `offer`/`answer`/`ice-candidate` relay message.
`hasPayload` is the truthiness of the `offer`/`answer`/`candidate` field;
the payload itself is opaque to the server and is not modelled. -/
structure RelayData where
  targetId : Option String
  hasPayload : Bool
  roomId : Option String
deriving DecidableEq

/-- The `offer` (part_000 lines 332-361), `answer` (lines 364-393) and
`ice-candidate` (lines 396-421) handlers, which differ only in the event
name `kind` and in logging.  No state is mutated; the result is the list of
emitted messages.  A missing/empty `targetId`, falsy payload or missing
`roomId` returns early; so does a sender whose registry entry does not
place it in `roomId`.  No error is ever emitted back to the sender. -/
def relayHandler (st : ServerState) (sid : String) (kind : String)
    (data : Option RelayData) : List Emission :=
  match data with
  | none => []
  | some d =>
    match d.targetId, d.roomId with
    | some t, some rid =>
      if t == "" || !d.hasPayload || rid == "" then []
      else
        match mapGet st.users sid with
        | none => []
        | some u =>
          if u.currentRoom == some rid then
            [(t, Payload.relayed kind sid rid)]
          else []
    | _, _ => []

/-- JavaScript `String.prototype.trim`: strip leading and trailing
whitespace (executable list-based model; Lean's own `String.trim` is
defined by well-founded recursion over byte positions and does not reduce
in the kernel). -/
def trimString (s : String) : String :=
  ⟨((s.data.dropWhile Char.isWhitespace).reverse.dropWhile
      Char.isWhitespace).reverse⟩

/-- JavaScript `String.prototype.substring(0, n)` (executable list-based
model; `String.take` walks byte positions `n` times and does not reduce
for the 1000-character cap). -/
def takeString (s : String) (n : Nat) : String :=
  ⟨s.data.take n⟩

/-- The data of a `chat-message` event. -/
structure ChatData where
  roomId : Option String
  message : Option String
deriving DecidableEq

/-- The `chat-message` handler (part_000 lines 452-489).  `msgId` stands
for the generated `uuidv4()` and `now` for the timestamp.  The broadcast
uses `io.to(roomId)`, i.e. every participant of the room **including the
sender**. -/
def chatMessage (st : ServerState) (sid : String) (data : Option ChatData)
    (msgId : String) (now : Nat) : List Emission :=
  match data with
  | none => []
  | some d =>
    match d.roomId, d.message with
    | some rid, some msg =>
      if rid == "" || msg == "" then []
      else
        let sanitizedMessage := takeString (trimString msg) 1000
        if sanitizedMessage == "" then []
        else
          match mapGet st.users sid with
          | none => []
          | some u =>
            if u.currentRoom == some rid then
              match mapGet st.rooms rid with
              | some room =>
                emitToRoomAll room.participants
                  (Payload.chatMessage msgId sanitizedMessage sid now)
              | none => []
            else []
    | _, _ => []

/-! ## The delayed-cleanup variant (`src/backend/server.js`)

Only the effect on the `rooms` map matters for the cleanup claims, so the
participant registry, the emitted events and scheduling details are not
modelled here. -/

/-- Room record of the backend variant (server.js lines 81-87); its
`participants` is a `Map` keyed by socket id, modelled by its key list. -/
structure BRoom where
  id : String
  participants : List String
  createdAt : Nat
  isActive : Bool
deriving DecidableEq

/-- The `rooms`-map effect of `handleLeaveRoom` (server.js lines 240-277):
remove the leaver from the room's participant map and, if it became empty,
mark the room inactive.  The 5-minute `setTimeout` deletion scheduled here
is modelled separately by `delayedRoomDelete`. -/
def handleLeaveRoomRooms (rooms : List (String × BRoom)) (sid : String)
    (roomId : Option String) : List (String × BRoom) :=
  match roomId with
  | none => rooms
  | some rid =>
    match mapGet rooms rid with
    | none => rooms
    | some room =>
      if sid ∈ room.participants then
        let remaining := room.participants.filter (fun q => q != sid)
        let room1 := { room with participants := remaining }
        let room2 := if remaining.length == 0 then
            { room1 with isActive := false }
          else room1
        mapReplace rooms rid room2
      else rooms

/-- The body of the 5-minute `setTimeout` in `handleLeaveRoom`
(server.js lines 262-267): delete the room named by `socket.roomId` if it
is still empty.  The callback reads `socket.roomId` **when it fires**, and
`handleLeaveRoom` sets `socket.roomId = null` right after scheduling it, so
at fire time `roomIdAtFire` is `none` (or a later room the socket joined)
and the emptied room is never the one inspected. -/
def delayedRoomDelete (rooms : List (String × BRoom))
    (roomIdAtFire : Option String) : List (String × BRoom) :=
  match roomIdAtFire with
  | none => rooms
  | some rid =>
    match mapGet rooms rid with
    | some room =>
      if room.participants.length == 0 then mapDelete rooms rid else rooms
    | none => rooms

/-- The periodic cleanup sweep of the backend variant (server.js lines
280-292): every inactive, empty room older than one hour
(3600000 ms) is deleted. -/
def cleanupSweep (rooms : List (String × BRoom)) (now : Nat) :
    List (String × BRoom) :=
  rooms.filter (fun e =>
    !(!e.2.isActive && e.2.participants.length == 0
      && decide (3600000 < now - e.2.createdAt)))

/-! ## Invariants and counting helpers -/

/-- The participant ids of a membership list. -/
def pIds (ps : List Participant) : List String :=
  ps.map Participant.id

/-- The inductive host invariant of a membership list: participant ids are
distinct, the host id belongs to a present participant, and a participant's
`isHost` flag is set exactly when it is the host. -/
def hostOk (host : String) (ps : List Participant) : Prop :=
  (pIds ps).Nodup ∧ host ∈ pIds ps ∧ ∀ p ∈ ps, (p.isHost = true ↔ p.id = host)

/-- A stored room is well-formed: non-empty (empty rooms are deleted at
once) and satisfying the host invariant. -/
def roomOk (room : Room) : Prop :=
  room.participants ≠ [] ∧ hostOk room.host room.participants

/-- Every room in the registry is well-formed. -/
def stateOk (st : ServerState) : Prop :=
  ∀ e ∈ st.rooms, roomOk e.2

/-- The host invariant exactly as the specification states it: exactly one
participant record has `isHost = true`, and the room's `host` field is the
id of a present participant. -/
def uniqueHost (room : Room) : Prop :=
  (room.participants.filter (fun p => p.isHost)).length = 1
    ∧ room.host ∈ pIds room.participants

/-- The specification's invariant over the whole registry, for rooms with
at least one participant. -/
def specHostInvariant (st : ServerState) : Prop :=
  ∀ e ∈ st.rooms, e.2.participants ≠ [] → uniqueHost e.2

instance (host : String) (ps : List Participant) : Decidable (hostOk host ps) := by
  unfold hostOk; infer_instance

instance (room : Room) : Decidable (roomOk room) := by
  unfold roomOk; infer_instance

instance (st : ServerState) : Decidable (stateOk st) := by
  unfold stateOk; infer_instance

instance (room : Room) : Decidable (uniqueHost room) := by
  unfold uniqueHost; infer_instance

instance (st : ServerState) : Decidable (specHostInvariant st) := by
  unfold specHostInvariant; infer_instance

/-- Number of emitted messages delivered to `rcpt` whose payload satisfies
`f`. -/
def countTo (ems : List Emission) (rcpt : String) (f : Payload → Bool) :
    Nat :=
  (ems.filter (fun e => e.1 == rcpt && f e.2)).length

/-- Payload classifier: `joined-room` events. -/
def Payload.isJoinedRoom : Payload → Bool
  | .joinedRoom .. => true
  | _ => false

/-- Payload classifier: `user-joined` events announcing participant `pid`. -/
def Payload.isUserJoinedOf (pid : String) : Payload → Bool
  | .userJoined p _ _ => p.id == pid
  | _ => false

/-- Payload classifier: `host-transferred` events. -/
def Payload.isHostTransferred : Payload → Bool
  | .hostTransferred .. => true
  | _ => false

/-- Payload classifier: `host-changed` events naming `nh` as the new
host. -/
def Payload.isHostChangedTo (nh : String) : Payload → Bool
  | .hostChanged h _ => h == nh
  | _ => false

/-! ## Concrete states used by witnesses and counterexamples -/

/-- A registry entry with fixed timestamps. -/
def wUser (sid : String) (room : Option String) : User :=
  { id := sid, currentRoom := room, connectedAt := 0, lastActivity := 0 }

/-- A participant record with the given host flag. -/
def wPart (sid nm : String) (hostFlag : Bool) (t : Nat) : Participant :=
  { id := sid, name := nm, isHost := hostFlag, joinedAt := t }

/-- A room with fixed timestamps and the default 50-participant cap. -/
def wRoom (rid : String) (ps : List Participant) (hostId : String) : Room :=
  { id := rid, participants := ps, host := hostId, createdAt := 0,
    maxParticipants := 50, lastActivity := 0 }

/-- One registered connection, no rooms. -/
def stFreshJoin : ServerState := ⟨[], [("s1", wUser "s1" none)]⟩

/-- `s1` alone in `room-1`; `s2` registered but roomless. -/
def stSoloRoom : ServerState :=
  ⟨[("room-1", wRoom "room-1" [wPart "s1" "User s1" true 0] "s1")],
   [("s1", wUser "s1" (some "room-1")), ("s2", wUser "s2" none)]⟩

/-- Three members `a1`, `b1`, `c1` in `m1`, host `a1`, in join order. -/
def stTrioRoom : ServerState :=
  ⟨[("m1", wRoom "m1" [wPart "a1" "A" true 0, wPart "b1" "B" false 1,
      wPart "c1" "C" false 2] "a1")],
   [("a1", wUser "a1" (some "m1")), ("b1", wUser "b1" (some "m1")),
    ("c1", wUser "c1" (some "m1"))]⟩

/-- Two members `a`, `b` in `meet`, host `a`. -/
def stPair : ServerState :=
  ⟨[("meet", wRoom "meet" [wPart "a" "A" true 0, wPart "b" "B" false 1] "a")],
   [("a", wUser "a" (some "meet")), ("b", wUser "b" (some "meet"))]⟩

/-- `u` alone in `room-1` (duplicate-join scenario). -/
def stDupJoin : ServerState :=
  ⟨[("room-1", wRoom "room-1" [wPart "u" "U" true 0] "u")],
   [("u", wUser "u" (some "room-1"))]⟩

/-- Fifty distinct participants `p0` … `p49`. -/
def fullParticipants : List Participant :=
  (List.range 50).map (fun i => wPart (String.append "p" (toString i)) "P"
    (i == 0) 0)

/-- `big-room` at its 50-participant cap, and `u` alone in `side-room`. -/
def stFullRoom : ServerState :=
  ⟨[("big-room", wRoom "big-room" fullParticipants "p0"),
    ("side-room", wRoom "side-room" [wPart "u" "U" true 0] "u")],
   [("u", wUser "u" (some "side-room"))]⟩

/-- The state after `u`, member of `side-room`, requested to join the full
`big-room`: the request is rejected but `side-room` is gone and `u` is in
no room. -/
def stFullRoomAfter : ServerState :=
  ⟨[("big-room", wRoom "big-room" fullParticipants "p0")],
   [("u", wUser "u" none)]⟩

/-- `x` alone in `solo-room`. -/
def stSolo : ServerState :=
  ⟨[("solo-room", wRoom "solo-room" [wPart "x" "X" true 0] "x")],
   [("x", wUser "x" (some "solo-room"))]⟩

/-- An inactive, empty backend-variant room created at time 0. -/
def bRoomOld : BRoom :=
  { id := "old-room", participants := [], createdAt := 0, isActive := false }

/-- The state reached from `stFreshJoin` after `s1` joins `room-1`. -/
def stAfterFirstJoin : ServerState :=
  ⟨[("room-1", wRoom "room-1" [wPart "s1" "User s1" true 0] "s1")],
   [("s1", wUser "s1" (some "room-1"))]⟩

/-- The state after `x` left `solo-room`: the room is gone. -/
def stSoloAfter : ServerState := ⟨[], [("x", wUser "x" none)]⟩

/-- The state after `s2` joined `room-1` alongside `s1` at time 4. -/
def stSoloRoomAfterJoin : ServerState :=
  ⟨[("room-1",
    { id := "room-1",
      participants := [wPart "s1" "User s1" true 0,
        wPart "s2" "User s2" false 4],
      host := "s1", createdAt := 0, maxParticipants := 50,
      lastActivity := 4 })],
   [("s1", wUser "s1" (some "room-1")),
    ("s2",
     { id := "s2", currentRoom := some "room-1", connectedAt := 0,
       lastActivity := 4 })]⟩

/-- The messages emitted when `s2` joins `room-1` alongside `s1`. -/
def emsJoinSolo : List Emission :=
  [("s2", Payload.joinedRoom "room-1" (wPart "s2" "User s2" false 4) "s1" 2
    [wPart "s1" "User s1" true 0]),
   ("s1", Payload.userJoined (wPart "s2" "User s2" false 4) "room-1" 2)]

/-- The state after host `a1` left `m1`: `b1` (first remaining in join
order) is the promoted host. -/
def stTrioAfter : ServerState :=
  ⟨[("m1",
    { id := "m1",
      participants := [wPart "b1" "B" true 1, wPart "c1" "C" false 2],
      host := "b1", createdAt := 0, maxParticipants := 50,
      lastActivity := 0 })],
   [("a1", wUser "a1" none), ("b1", wUser "b1" (some "m1")),
    ("c1", wUser "c1" (some "m1"))]⟩

/-- The messages emitted when host `a1` leaves `m1`. -/
def emsTrio : List Emission :=
  [("b1", Payload.userLeft "a1" "m1" 2), ("c1", Payload.userLeft "a1" "m1" 2),
   ("b1", Payload.hostTransferred "m1" true),
   ("b1", Payload.hostChanged "b1" "m1"),
   ("c1", Payload.hostChanged "b1" "m1")]

/-- A backend-variant rooms map with `m` alone in `b-room`. -/
def bRooms1 : List (String × BRoom) :=
  [("b-room",
    { id := "b-room", participants := ["m"], createdAt := 0,
      isActive := true })]

/-! ## Lemmas about the association-list map operations -/

theorem mapGet_mem {α : Type} {m : List (String × α)} {k : String} {v : α}
    (h : mapGet m k = some v) : (k, v) ∈ m := by
  unfold mapGet at h
  obtain ⟨e, he, hv⟩ := Option.map_eq_some'.mp h
  have hm := List.mem_of_find?_eq_some he
  have hk : e.1 = k := by simpa using List.find?_some he
  cases e
  cases hv
  cases hk
  exact hm

theorem mapGet_eq_none {α : Type} {m : List (String × α)} {k : String}
    (h : mapGet m k = none) : ∀ e ∈ m, (e.1 == k) = false := by
  unfold mapGet at h
  have h2 := Option.map_eq_none'.mp h
  intro e he
  simpa using List.find?_eq_none.mp h2 e he

theorem mapGet_cons {α : Type} (e : String × α) (m : List (String × α))
    (k : String) :
    mapGet (e :: m) k = if e.1 == k then some e.2 else mapGet m k := by
  unfold mapGet
  by_cases h : (e.1 == k) = true
  · rw [List.find?_cons_of_pos m h, if_pos h]
    rfl
  · rw [List.find?_cons_of_neg m h, if_neg h]

theorem mapReplace_cons {α : Type} (e : String × α) (m : List (String × α))
    (k : String) (v : α) :
    mapReplace (e :: m) k v =
      (if e.1 == k then (e.1, v) else e) :: mapReplace m k v := rfl

theorem mapDelete_cons {α : Type} (e : String × α) (m : List (String × α))
    (k : String) :
    mapDelete (e :: m) k =
      if e.1 != k then e :: mapDelete m k else mapDelete m k := by
  unfold mapDelete
  rw [List.filter_cons]

theorem mapGet_mapReplace_self {α : Type} {m : List (String × α)}
    {k : String} {v : α} (w : α) (h : mapGet m k = some v) :
    mapGet (mapReplace m k w) k = some w := by
  induction m with
  | nil => simp [mapGet] at h
  | cons e rest ih =>
    rw [mapGet_cons] at h
    rw [mapReplace_cons]
    by_cases hek : (e.1 == k) = true
    · rw [if_pos hek, mapGet_cons, if_pos hek]
    · rw [if_neg hek] at h
      rw [if_neg hek, mapGet_cons, if_neg hek]
      exact ih h

theorem mapGet_mapReplace_ne {α : Type} (m : List (String × α))
    {k k' : String} (v : α) (h : k' ≠ k) :
    mapGet (mapReplace m k v) k' = mapGet m k' := by
  induction m with
  | nil => rfl
  | cons e rest ih =>
    rw [mapReplace_cons]
    by_cases hek : (e.1 == k) = true
    · have he1 : e.1 = k := by simpa using hek
      have hek' : ¬ (e.1 == k') = true := by simp [he1, Ne.symm h]
      rw [if_pos hek, mapGet_cons, mapGet_cons, if_neg hek', if_neg hek']
      exact ih
    · rw [if_neg hek, mapGet_cons, mapGet_cons]
      by_cases hek' : (e.1 == k') = true
      · rw [if_pos hek', if_pos hek']
      · rw [if_neg hek', if_neg hek']
        exact ih

theorem mapGet_mapDelete_self {α : Type} (m : List (String × α))
    (k : String) : mapGet (mapDelete m k) k = none := by
  unfold mapGet
  rw [Option.map_eq_none', List.find?_eq_none]
  intro e he
  have := (List.mem_filter.mp he).2
  simp only [bne_iff_ne, ne_eq] at this
  simp [this]

theorem mapGet_mapDelete_ne {α : Type} (m : List (String × α))
    {k k' : String} (h : k' ≠ k) :
    mapGet (mapDelete m k) k' = mapGet m k' := by
  induction m with
  | nil => rfl
  | cons e rest ih =>
    rw [mapDelete_cons]
    by_cases hek : (e.1 == k) = true
    · have he1 : e.1 = k := by simpa using hek
      have hbne : ¬ (e.1 != k) = true := by simp [he1]
      have hek' : ¬ (e.1 == k') = true := by simp [he1, Ne.symm h]
      rw [if_neg hbne, mapGet_cons, if_neg hek']
      exact ih
    · have hbne : (e.1 != k) = true := by simpa using hek
      rw [if_pos hbne, mapGet_cons, mapGet_cons]
      by_cases hek' : (e.1 == k') = true
      · rw [if_pos hek', if_pos hek']
      · rw [if_neg hek', if_neg hek']
        exact ih

theorem mem_mapReplace_elim {α : Type} {m : List (String × α)} {k : String}
    {v : α} {e : String × α} (h : e ∈ mapReplace m k v) :
    e = (k, v) ∨ (e ∈ m ∧ (e.1 == k) = false) := by
  unfold mapReplace at h
  obtain ⟨a, ha, hae⟩ := List.mem_map.mp h
  by_cases hak : a.1 == k
  · left
    have hk : a.1 = k := by simpa using hak
    rw [if_pos hak] at hae
    rw [← hae, hk]
  · right
    rw [if_neg hak] at hae
    cases hae
    exact ⟨ha, by simpa using hak⟩

theorem mem_mapDelete {α : Type} {m : List (String × α)} {k : String}
    {e : String × α} (h : e ∈ mapDelete m k) : e ∈ m :=
  (List.mem_filter.mp h).1

/-! ## Lemmas about emission counting -/

theorem countTo_nil (r : String) (f : Payload → Bool) :
    countTo [] r f = 0 := rfl

theorem countTo_append (a b : List Emission) (r : String)
    (f : Payload → Bool) :
    countTo (a ++ b) r f = countTo a r f + countTo b r f := by
  unfold countTo
  rw [List.filter_append, List.length_append]

theorem countTo_single (tgt : String) (p : Payload) (r : String)
    (f : Payload → Bool) :
    countTo [(tgt, p)] r f = if tgt == r && f p then 1 else 0 := by
  unfold countTo
  cases h : tgt == r && f p <;> simp [List.filter, h]

theorem countTo_zero_of_all (ems : List Emission) (r : String)
    (f : Payload → Bool) (h : ∀ e ∈ ems, f e.2 = false) :
    countTo ems r f = 0 := by
  unfold countTo
  rw [List.length_eq_zero, List.filter_eq_nil_iff]
  intro e he
  simp [h e he]

theorem countTo_emitAll (ps : List Participant) (pl : Payload) (r : String)
    (f : Payload → Bool) :
    countTo (ps.map (fun q => (q.id, pl))) r f =
      if f pl then (ps.filter (fun q => q.id == r)).length else 0 := by
  induction ps with
  | nil => cases h : f pl <;> simp [countTo, h]
  | cons q rest ih =>
    unfold countTo at ih ⊢
    simp only [List.map_cons, List.filter_cons]
    cases hf : f pl <;> cases hq : q.id == r <;>
      simp_all [List.filter_cons]

theorem countTo_emitToRoomExcept (ps : List Participant) (senderId : String)
    (pl : Payload) (r : String) (f : Payload → Bool) :
    countTo (emitToRoomExcept ps senderId pl) r f =
      if f pl then
        ((ps.filter (fun q => q.id != senderId)).filter
          (fun q => q.id == r)).length
      else 0 := by
  unfold emitToRoomExcept
  exact countTo_emitAll _ pl r f

/-! ## Lemmas about participant ids and the host invariant -/

theorem mem_pIds {ps : List Participant} {x : String} :
    x ∈ pIds ps ↔ ∃ p ∈ ps, p.id = x := by
  unfold pIds
  exact List.mem_map

theorem filter_id_eq_nil {ps : List Participant} {x : String}
    (hm : x ∉ pIds ps) : ps.filter (fun p => p.id == x) = [] := by
  rw [List.filter_eq_nil_iff]
  intro p hp
  simp only [beq_iff_eq]
  intro he
  exact hm (mem_pIds.mpr ⟨p, hp, he⟩)

theorem length_filter_id_one {ps : List Participant} {x : String}
    (hn : (pIds ps).Nodup) (hm : x ∈ pIds ps) :
    (ps.filter (fun p => p.id == x)).length = 1 := by
  induction ps with
  | nil => simp [pIds] at hm
  | cons p rest ih =>
    rw [pIds, List.map_cons, List.nodup_cons] at hn
    rw [List.filter_cons]
    by_cases hpx : (p.id == x) = true
    · have hpe : p.id = x := by simpa using hpx
      have hx : x ∉ pIds rest := by
        rw [← hpe]
        exact hn.1
      rw [if_pos hpx, filter_id_eq_nil hx]
      rfl
    · rw [if_neg hpx]
      apply ih hn.2
      have : x = p.id ∨ x ∈ pIds rest := by
        simpa [pIds] using hm
      rcases this with h1 | h2
      · exact absurd (by simp [h1]) hpx
      · exact h2

theorem hostOk_uniqueHost {room : Room}
    (h : hostOk room.host room.participants) : uniqueHost room := by
  obtain ⟨hn, hm, hiff⟩ := h
  refine ⟨?_, hm⟩
  have heq : room.participants.filter (fun p => p.isHost) =
      room.participants.filter (fun p => p.id == room.host) := by
    apply List.filter_congr
    intro p hp
    have hi := hiff p hp
    by_cases hid : p.id = room.host
    · simp [hid, hi.mpr hid]
    · have hne : p.isHost ≠ true := fun hh => hid (hi.mp hh)
      have hfalse : p.isHost = false := by
        cases hhh : p.isHost
        · rfl
        · exact absurd hhh hne
      simp [hfalse, hid]
  rw [heq]
  exact length_filter_id_one hn hm

theorem emitToRoomExcept_snd {ps : List Participant} {senderId : String}
    {pl : Payload} {e : Emission} (h : e ∈ emitToRoomExcept ps senderId pl) :
    e.2 = pl := by
  unfold emitToRoomExcept at h
  obtain ⟨q, _, he⟩ := List.mem_map.mp h
  rw [← he]

theorem pIds_filter_sublist (ps : List Participant) (q : Participant → Bool) :
    List.Sublist (pIds (ps.filter q)) (pIds ps) :=
  (List.filter_sublist ps).map Participant.id

/-! ## Inversion of `leaveCurrentRoom` -/

/-- Complete case analysis of a completed `leaveCurrentRoom` call: either it
was a no-op, or the leaver was removed from its current room, which was then
deleted (last member), handed to a new host (leaver was host) or left
otherwise unchanged. -/
theorem leave_spec {st : ServerState} {sid : String} {held : List String}
    {st1 : ServerState} {ems1 : List Emission}
    (h : leaveCurrentRoom st sid held = some (st1, ems1)) :
    (st1 = st ∧ ems1 = []) ∨
    ∃ u roomId room,
      mapGet st.users sid = some u ∧ u.currentRoom = some roomId ∧
      roomId ∉ held ∧ mapGet st.rooms roomId = some room ∧
      st1.users = mapReplace st.users sid { u with currentRoom := none } ∧
      ((room.participants.filter (fun p => p.id != sid) = [] ∧
        st1.rooms = mapDelete st.rooms roomId ∧ ems1 = []) ∨
       (∃ hd tl, room.participants.filter (fun p => p.id != sid) = hd :: tl ∧
         ((room.host = sid ∧
           st1.rooms = mapReplace st.rooms roomId
             { room with participants := { hd with isHost := true } :: tl,
                         host := hd.id } ∧
           ems1 = emitToRoomExcept (hd :: tl) sid
               (Payload.userLeft sid roomId (hd :: tl).length)
             ++ [(hd.id, Payload.hostTransferred roomId true)]
             ++ emitToRoomExcept ({ hd with isHost := true } :: tl) sid
                 (Payload.hostChanged hd.id roomId)) ∨
          (room.host ≠ sid ∧
           st1.rooms = mapReplace st.rooms roomId
             { room with participants := hd :: tl } ∧
           ems1 = emitToRoomExcept (hd :: tl) sid
             (Payload.userLeft sid roomId (hd :: tl).length))))) := by
  unfold leaveCurrentRoom at h
  cases hu : mapGet st.users sid with
  | none =>
    rw [hu] at h
    dsimp only at h
    simp only [Option.some.injEq, Prod.mk.injEq] at h
    exact Or.inl ⟨h.1.symm, h.2.symm⟩
  | some u =>
    rw [hu] at h
    dsimp only at h
    cases hcr : u.currentRoom with
    | none =>
      rw [hcr] at h
      dsimp only at h
      simp only [Option.some.injEq, Prod.mk.injEq] at h
      exact Or.inl ⟨h.1.symm, h.2.symm⟩
    | some roomId =>
      rw [hcr] at h
      dsimp only at h
      by_cases hh : roomId ∈ held
      · rw [if_pos hh] at h
        exact absurd h (by simp)
      · rw [if_neg hh] at h
        cases hr : mapGet st.rooms roomId with
        | none =>
          rw [hr] at h
          dsimp only at h
          simp only [Option.some.injEq, Prod.mk.injEq] at h
          exact Or.inl ⟨h.1.symm, h.2.symm⟩
        | some room =>
          rw [hr] at h
          dsimp only at h
          cases hrem : room.participants.filter (fun p => p.id != sid) with
          | nil =>
            rw [hrem] at h
            dsimp only at h
            simp only [Option.some.injEq, Prod.mk.injEq] at h
            refine Or.inr ⟨u, roomId, room, rfl, hcr, hh, hr, ?_,
              Or.inl ⟨hrem, ?_, h.2.symm⟩⟩
            · rw [← h.1]
            · rw [← h.1]
          | cons hd tl =>
            rw [hrem] at h
            dsimp only at h
            by_cases hhost : (room.host == sid) = true
            · rw [if_pos hhost] at h
              simp only [Option.some.injEq, Prod.mk.injEq] at h
              refine Or.inr ⟨u, roomId, room, rfl, hcr, hh, hr, ?_,
                Or.inr ⟨hd, tl, hrem, Or.inl ⟨by simpa using hhost, ?_,
                  h.2.symm⟩⟩⟩
              · rw [← h.1]
              · rw [← h.1]
            · rw [if_neg hhost] at h
              simp only [Option.some.injEq, Prod.mk.injEq] at h
              refine Or.inr ⟨u, roomId, room, rfl, hcr, hh, hr, ?_,
                Or.inr ⟨hd, tl, hrem, Or.inr ⟨by simpa using hhost, ?_,
                  h.2.symm⟩⟩⟩
              · rw [← h.1]
              · rw [← h.1]

/-! ## Preservation of the host invariant -/

theorem roomOk_promote {room : Room} {sid : String} {hd : Participant}
    {tl : List Participant} (hro : roomOk room) (hhost : room.host = sid)
    (hfil : room.participants.filter (fun p => p.id != sid) = hd :: tl) :
    roomOk { room with participants := { hd with isHost := true } :: tl,
                       host := hd.id } := by
  obtain ⟨-, hn, -, hiff⟩ := hro
  have hsub : List.Sublist (pIds (hd :: tl)) (pIds room.participants) := by
    rw [← hfil]
    exact pIds_filter_sublist room.participants _
  have hn2 : (pIds (hd :: tl)).Nodup := hn.sublist hsub
  have hmem_tail : ∀ p ∈ tl, p ∈ room.participants ∧ (p.id != sid) = true := by
    intro p hp
    have : p ∈ room.participants.filter (fun p => p.id != sid) := by
      rw [hfil]
      exact List.mem_cons_of_mem hd hp
    exact List.mem_filter.mp this
  refine ⟨by simp, ?_, ?_, ?_⟩
  · show (pIds ({ hd with isHost := true } :: tl)).Nodup
    simpa [pIds] using hn2
  · show hd.id ∈ pIds ({ hd with isHost := true } :: tl)
    simp [pIds]
  · intro p hp
    rcases List.mem_cons.mp hp with rfl | hptl
    · simp
    · have hmem := hmem_tail p hptl
      have hne_sid : p.id ≠ sid := by simpa using hmem.2
      have hnohost : p.isHost ≠ true := by
        intro habs
        exact hne_sid (hhost ▸ (hiff p hmem.1).mp habs)
      have hne_hd : p.id ≠ hd.id := by
        rw [pIds, List.map_cons, List.nodup_cons] at hn2
        intro habs
        exact hn2.1 (habs ▸ mem_pIds.mpr ⟨p, hptl, rfl⟩)
      constructor
      · intro habs
        exact absurd habs hnohost
      · intro habs
        exact absurd habs hne_hd

theorem roomOk_remove {room : Room} {sid : String} {hd : Participant}
    {tl : List Participant} (hro : roomOk room) (hhost : room.host ≠ sid)
    (hfil : room.participants.filter (fun p => p.id != sid) = hd :: tl) :
    roomOk { room with participants := hd :: tl } := by
  obtain ⟨-, hn, hm, hiff⟩ := hro
  have hsub : List.Sublist (pIds (hd :: tl)) (pIds room.participants) := by
    rw [← hfil]
    exact pIds_filter_sublist room.participants _
  have hmem : ∀ p ∈ hd :: tl, p ∈ room.participants := by
    intro p hp
    have : p ∈ room.participants.filter (fun p => p.id != sid) := by
      rw [hfil]; exact hp
    exact (List.mem_filter.mp this).1
  refine ⟨by simp, hn.sublist hsub, ?_, ?_⟩
  · obtain ⟨p0, hp0, hp0id⟩ := mem_pIds.mp hm
    have : p0 ∈ room.participants.filter (fun p => p.id != sid) := by
      refine List.mem_filter.mpr ⟨hp0, ?_⟩
      simp [hp0id, hhost]
    rw [hfil] at this
    exact mem_pIds.mpr ⟨p0, this, hp0id⟩
  · intro p hp
    exact hiff p (hmem p hp)

theorem leave_stateOk {st : ServerState} {sid : String} {held : List String}
    {st1 : ServerState} {ems1 : List Emission} (hOk : stateOk st)
    (h : leaveCurrentRoom st sid held = some (st1, ems1)) : stateOk st1 := by
  rcases leave_spec h with ⟨hst, -⟩ |
    ⟨u, rid, room, hu, hcr, hh, hr, hus, hcases⟩
  · rw [hst]; exact hOk
  · have hroomOk : roomOk room := hOk (rid, room) (mapGet_mem hr)
    rcases hcases with ⟨hfil, hrooms, -⟩ | ⟨hd, tl, hfil, hbranch⟩
    · intro e he
      rw [hrooms] at he
      exact hOk e (mem_mapDelete he)
    · rcases hbranch with ⟨hhost, hrooms, -⟩ | ⟨hhost, hrooms, -⟩
      · intro e he
        rw [hrooms] at he
        rcases mem_mapReplace_elim he with he1 | ⟨hem, -⟩
        · rw [he1]
          exact roomOk_promote hroomOk hhost hfil
        · exact hOk e hem
      · intro e he
        rw [hrooms] at he
        rcases mem_mapReplace_elim he with he1 | ⟨hem, -⟩
        · rw [he1]
          exact roomOk_remove hroomOk hhost hfil
        · exact hOk e hem

theorem roomOk_append {room0 : Room} {sid : String} {part : Participant}
    {now : Nat} (hro : roomOk room0)
    (hnot : sid ∉ pIds room0.participants) (hid : part.id = sid)
    (hflag : part.isHost = false) :
    roomOk { room0 with participants := room0.participants ++ [part],
                        lastActivity := now } := by
  obtain ⟨hne, hn, hm, hiff⟩ := hro
  have hhost_ne : room0.host ≠ sid := by
    intro habs
    exact hnot (habs ▸ hm)
  refine ⟨by simp, ?_, ?_, ?_⟩
  · show (pIds (room0.participants ++ [part])).Nodup
    rw [pIds, List.map_append]
    refine List.Nodup.append hn (by simp) ?_
    intro a ha hb
    rw [← pIds] at ha
    simp only [List.map_cons, List.map_nil, List.mem_singleton] at hb
    rw [hb, hid] at ha
    exact hnot ha
  · show room0.host ∈ pIds (room0.participants ++ [part])
    rw [pIds, List.map_append]
    exact List.mem_append_left _ hm
  · intro p hp
    rcases List.mem_append.mp hp with hpl | hpr
    · exact hiff p hpl
    · have : p = part := by simpa using hpr
      rw [this, hflag, hid]
      simp [Ne.symm hhost_ne]

/-- After the duplicate check succeeds, the joiner's id is fresh in the
room. -/
theorem not_mem_of_find?_id_none {ps : List Participant} {sid : String}
    (h : (ps.find? (fun p => p.id == sid)).isSome = false) :
    sid ∉ pIds ps := by
  intro habs
  obtain ⟨p, hp, hpid⟩ := mem_pIds.mp habs
  have hnone : ps.find? (fun p => p.id == sid) = none := by
    cases hfind : ps.find? (fun p => p.id == sid) with
    | none => rfl
    | some q =>
      rw [hfind] at h
      simp at h
  exact List.find?_eq_none.mp hnone p hp (by simp [hpid])

theorem admit_stateOk_existing {st1 : ServerState} {ems1 : List Emission}
    {sid : String} {ui : Option UserInfo} {roomId : String} {room0 : Room}
    {now : Nat} {st' : ServerState} {ems : List Emission}
    (hOk1 : stateOk st1) (hr : mapGet st1.rooms roomId = some room0)
    (h : admitToRoom st1 ems1 sid ui roomId room0 st1.rooms now =
      (st', ems)) : stateOk st' := by
  have hroomOk : roomOk room0 := hOk1 (roomId, room0) (mapGet_mem hr)
  unfold admitToRoom at h
  by_cases hfull : room0.participants.length ≥ room0.maxParticipants
  · rw [if_pos hfull] at h
    simp only [Prod.mk.injEq] at h
    intro e he
    rw [← h.1] at he
    exact hOk1 e he
  · rw [if_neg hfull] at h
    by_cases hdup : (room0.participants.find? (fun p => p.id == sid)).isSome
    · rw [if_pos hdup] at h
      simp only [Prod.mk.injEq] at h
      intro e he
      rw [← h.1] at he
      exact hOk1 e he
    · rw [if_neg hdup] at h
      dsimp only at h
      simp only [Prod.mk.injEq] at h
      have hfresh : sid ∉ pIds room0.participants :=
        not_mem_of_find?_id_none (by simpa using hdup)
      have hflag : (room0.participants.length == 0
          || sid == room0.host) = false := by
        have h1 : (room0.participants.length == 0) = false := by
          simp [List.length_eq_zero, hroomOk.1]
        have h2 : (sid == room0.host) = false := by
          have : room0.host ≠ sid := by
            intro habs
            exact hfresh (habs ▸ hroomOk.2.2.1)
          simp [Ne.symm this]
        rw [h1, h2]
        rfl
      intro e he
      rw [← h.1] at he
      rcases mem_mapReplace_elim he with he1 | ⟨hem, -⟩
      · rw [he1]
        exact roomOk_append hroomOk hfresh rfl (by rw [hflag])
      · exact hOk1 e hem

theorem admit_stateOk_fresh {st1 : ServerState} {ems1 : List Emission}
    {sid : String} {ui : Option UserInfo} {roomId : String}
    {now : Nat} {st' : ServerState} {ems : List Emission}
    (hOk1 : stateOk st1)
    (h : admitToRoom st1 ems1 sid ui roomId (freshRoom roomId sid now)
      (st1.rooms ++ [(roomId, freshRoom roomId sid now)]) now =
      (st', ems)) : stateOk st' := by
  unfold admitToRoom at h
  rw [if_neg (by simp [freshRoom])] at h
  rw [if_neg (by simp [freshRoom])] at h
  dsimp only at h
  simp only [Prod.mk.injEq] at h
  intro e he
  rw [← h.1] at he
  rcases mem_mapReplace_elim he with he1 | ⟨hem, hne⟩
  · rw [he1]
    refine ⟨by simp [freshRoom], by simp [freshRoom, pIds],
      by simp [freshRoom, pIds], ?_⟩
    intro p hp
    simp only [freshRoom, List.nil_append, List.mem_singleton] at hp
    rw [hp]
    simp [freshRoom]
  · rcases List.mem_append.mp hem with hml | hmr
    · exact hOk1 e hml
    · have : e = (roomId, freshRoom roomId sid now) := by simpa using hmr
      rw [this] at hne
      simp at hne

theorem join_stateOk {st : ServerState} {sid : String} {rl : Bool}
    {data : Option JoinData} {now : Nat} {st' : ServerState}
    {ems : List Emission} (hOk : stateOk st)
    (h : joinRoom st sid rl data now = some (st', ems)) : stateOk st' := by
  unfold joinRoom at h
  cases rl with
  | true =>
    rw [if_pos rfl] at h
    simp only [Option.some.injEq, Prod.mk.injEq] at h
    rw [← h.1]
    exact hOk
  | false =>
    rw [if_neg (by simp)] at h
    cases data with
    | none =>
      dsimp only at h
      simp only [Option.some.injEq, Prod.mk.injEq] at h
      rw [← h.1]
      exact hOk
    | some d =>
      dsimp only at h
      cases hrid : d.roomId with
      | none =>
        rw [hrid] at h
        dsimp only at h
        simp only [Option.some.injEq, Prod.mk.injEq] at h
        rw [← h.1]
        exact hOk
      | some roomId =>
        rw [hrid] at h
        dsimp only at h
        by_cases hv1 : validateRoomId (some roomId)
        · rw [if_neg (by simp [hv1])] at h
          by_cases hv2 : validateUserInfo d.userInfo
          · rw [if_neg (by simp [hv2])] at h
            cases hlv : leaveCurrentRoom st sid [roomId] with
            | none =>
              rw [hlv] at h
              simp at h
            | some pair =>
              rw [hlv] at h
              dsimp only at h
              obtain ⟨st1, ems1⟩ := pair
              have hOk1 : stateOk st1 := leave_stateOk hOk hlv
              cases hroom : mapGet st1.rooms roomId with
              | some room0 =>
                rw [hroom] at h
                dsimp only at h
                simp only [Option.some.injEq] at h
                exact admit_stateOk_existing hOk1 hroom
                  (by rw [h])
              | none =>
                rw [hroom] at h
                dsimp only at h
                simp only [Option.some.injEq] at h
                exact admit_stateOk_fresh hOk1 (by rw [h])
          · rw [if_pos (by simp [hv2])] at h
            simp only [Option.some.injEq, Prod.mk.injEq] at h
            rw [← h.1]
            exact hOk
        · rw [if_pos (by simp [hv1])] at h
          simp only [Option.some.injEq, Prod.mk.injEq] at h
          rw [← h.1]
          exact hOk

theorem disconnect_stateOk {st : ServerState} {sid : String}
    {st' : ServerState} {ems : List Emission} (hOk : stateOk st)
    (h : disconnect st sid = some (st', ems)) : stateOk st' := by
  unfold disconnect at h
  cases hlv : leaveCurrentRoom st sid [] with
  | none =>
    rw [hlv] at h
    simp at h
  | some pair =>
    obtain ⟨st1, ems1⟩ := pair
    rw [hlv] at h
    dsimp only at h
    simp only [Option.some.injEq, Prod.mk.injEq] at h
    intro e he
    rw [← h.1] at he
    exact leave_stateOk hOk hlv e he

theorem stateOk_spec_invariant {st : ServerState} (h : stateOk st) :
    specHostInvariant st := by
  intro e he _
  exact hostOk_uniqueHost (h e he).2

theorem leave_ems_kinds {st : ServerState} {sid : String}
    {held : List String} {st1 : ServerState} {ems1 : List Emission}
    (h : leaveCurrentRoom st sid held = some (st1, ems1)) :
    ∀ e ∈ ems1, e.2.isJoinedRoom = false ∧
      ∀ pid, e.2.isUserJoinedOf pid = false := by
  rcases leave_spec h with ⟨-, hems⟩ |
    ⟨u, rid, room, -, -, -, -, -, hcases⟩
  · rw [hems]
    intro e he
    simp at he
  · rcases hcases with ⟨-, -, hems⟩ | ⟨hd, tl, -, hbr⟩
    · rw [hems]
      intro e he
      simp at he
    · rcases hbr with ⟨-, -, hems⟩ | ⟨-, -, hems⟩
      · rw [hems]
        intro e he
        rcases List.mem_append.mp he with he1 | he2
        · rcases List.mem_append.mp he1 with ha | hb
          · rw [emitToRoomExcept_snd ha]
            exact ⟨rfl, fun _ => rfl⟩
          · have hx : e = (hd.id, Payload.hostTransferred rid true) := by
              simpa using hb
            rw [hx]
            exact ⟨rfl, fun _ => rfl⟩
        · rw [emitToRoomExcept_snd he2]
          exact ⟨rfl, fun _ => rfl⟩
      · rw [hems]
        intro e he
        rw [emitToRoomExcept_snd he]
        exact ⟨rfl, fun _ => rfl⟩

theorem leave_mapGet_held {st : ServerState} {sid : String}
    {held : List String} {st1 : ServerState} {ems1 : List Emission}
    (h : leaveCurrentRoom st sid held = some (st1, ems1)) {rid : String}
    (hmem : rid ∈ held) : mapGet st1.rooms rid = mapGet st.rooms rid := by
  rcases leave_spec h with ⟨hst, -⟩ |
    ⟨u, rid0, room, -, -, hnot, -, -, hcases⟩
  · rw [hst]
  · have hne : rid ≠ rid0 := fun habs => hnot (habs ▸ hmem)
    rcases hcases with ⟨-, hrooms, -⟩ | ⟨hd, tl, -, hbr⟩
    · rw [hrooms]
      exact mapGet_mapDelete_ne _ hne
    · rcases hbr with ⟨-, hrooms, -⟩ | ⟨-, hrooms, -⟩ <;> rw [hrooms] <;>
        exact mapGet_mapReplace_ne _ _ hne

/-! ## Claim C1 -/

/-- Claim C1: for every room with at least one participant, exactly one
participant record has `isHost = true` and the room's `host` field is the
id of a participant present in the membership list; starting from any state
whose rooms satisfy the inductive host invariant `stateOk`, this holds
after every completed `join-room`, `leave-room` and `disconnect`
operation (and `stateOk` itself is preserved, so the invariant holds after
every sequence of such operations). -/
theorem claim1_host_invariant (st : ServerState) (hOk : stateOk st) :
    (∀ sid rl data now st' ems,
      joinRoom st sid rl data now = some (st', ems) →
        stateOk st' ∧ specHostInvariant st') ∧
    (∀ sid st' ems, leaveRoom st sid = some (st', ems) →
        stateOk st' ∧ specHostInvariant st') ∧
    (∀ sid st' ems, disconnect st sid = some (st', ems) →
        stateOk st' ∧ specHostInvariant st') := by
  refine ⟨?_, ?_, ?_⟩
  · intro sid rl data now st' ems h
    have h1 := join_stateOk hOk h
    exact ⟨h1, stateOk_spec_invariant h1⟩
  · intro sid st' ems h
    have h1 := leave_stateOk hOk h
    exact ⟨h1, stateOk_spec_invariant h1⟩
  · intro sid st' ems h
    have h1 := disconnect_stateOk hOk h
    exact ⟨h1, stateOk_spec_invariant h1⟩

/-- Witness for C1: concrete first join of `s1` into `room-1`. -/
theorem claim1_host_invariant_witness :
    stateOk stFreshJoin ∧
      (stateOk stAfterFirstJoin ∧ specHostInvariant stAfterFirstJoin) := by
  refine ⟨by decide, ?_⟩
  exact (claim1_host_invariant stFreshJoin (by decide)).1 "s1" false
    (some { roomId := some "room-1", userInfo := some { name := none } }) 0
    stAfterFirstJoin
    [("s1", Payload.joinedRoom "room-1" (wPart "s1" "User s1" true 0) "s1" 1
      [])]
    (by decide)

/-! ## Claims C5 and C6 -/

/-- Claim C5 (refuted — code bug): a second `join-room` request for the
room the connection is already a member of is **not** rejected with
`ALREADY_IN_ROOM`.  The handler takes `withRoomLock("room-1")` and then
runs the leave-before-join step, which calls `withRoomLock("room-1")`
again; the lock is not reentrant, so the nested acquisition awaits the
join's own lock promise forever.  The handler never completes (`none`):
no reply of any kind reaches the caller (membership is indeed unchanged),
and the `ALREADY_IN_ROOM` guard at part_000 lines 264-273 is unreachable. -/
theorem claim5_duplicate_join_deadlocks :
    joinRoom stDupJoin "u" false
      (some { roomId := some "room-1", userInfo := some { name := none } })
      5 = none := by decide

/-- Claim C6 (refuted — code bug): not every join operation terminates
with its lock released.  A join request from a connection whose current
room equals the requested room id makes the leave-before-join step
re-acquire the non-reentrant per-room lock the join already holds: the
join never completes, and the `roomLocks` entry for the room is never
cleared, wedging all future operations on that room. -/
theorem claim6_self_rejoin_never_completes :
    joinRoom stPair "a" false
      (some { roomId := some "meet", userInfo := some { name := none } })
      7 = none := by decide

/-! ## Claim C7 -/

/-- Claim C7: an emptied room does not outlive its cleanup policy.
(1) part_000 (immediate-delete variant): when the last participant leaves,
the room is removed from the rooms map at once.
(2) backend variant (delayed): `handleLeaveRoom` leaves the emptied room
in the map but marks it inactive, and
(3) the periodic sweep removes every inactive empty room whose age exceeds
the one-hour threshold, so no empty room survives the sweep window. -/
theorem claim7_empty_room_cleanup :
    (∀ (st : ServerState) (sid : String) (u : User) (rid : String)
       (room : Room) (st' : ServerState) (ems : List Emission),
      mapGet st.users sid = some u → u.currentRoom = some rid →
      mapGet st.rooms rid = some room →
      room.participants.filter (fun p => p.id != sid) = [] →
      leaveRoom st sid = some (st', ems) →
      mapGet st'.rooms rid = none) ∧
    (∀ (rooms : List (String × BRoom)) (sid rid : String) (room : BRoom),
      mapGet rooms rid = some room → sid ∈ room.participants →
      room.participants.filter (fun q => q != sid) = [] →
      mapGet (handleLeaveRoomRooms rooms sid (some rid)) rid =
        some { room with participants := [], isActive := false }) ∧
    (∀ (rooms : List (String × BRoom)) (now : Nat),
      ∀ e ∈ cleanupSweep rooms now,
        ¬(e.2.isActive = false ∧ e.2.participants = [] ∧
          3600000 < now - e.2.createdAt)) := by
  refine ⟨?_, ?_, ?_⟩
  · intro st sid u rid room st' ems hu hcr hr hfil hlv
    unfold leaveRoom leaveCurrentRoom at hlv
    rw [hu] at hlv
    dsimp only at hlv
    rw [hcr] at hlv
    dsimp only at hlv
    rw [if_neg (List.not_mem_nil rid)] at hlv
    rw [hr] at hlv
    dsimp only at hlv
    rw [hfil] at hlv
    simp only [Option.some.injEq, Prod.mk.injEq] at hlv
    rw [← hlv.1]
    exact mapGet_mapDelete_self st.rooms rid
  · intro rooms sid rid room hr hmem hfil
    unfold handleLeaveRoomRooms
    dsimp only
    rw [hr]
    dsimp only
    rw [if_pos hmem, hfil]
    exact mapGet_mapReplace_self _ hr
  · intro rooms now e he habs
    obtain ⟨h1, h2, h3⟩ := habs
    have hkeep := (List.mem_filter.mp he).2
    rw [h1, h2] at hkeep
    simp [h3] at hkeep

/-- Witness for C7: `x` leaves `solo-room`, which disappears immediately;
in the backend variant `m` leaves `b-room`, which is kept but marked
inactive and emptied. -/
theorem claim7_empty_room_cleanup_witness :
    mapGet stSoloAfter.rooms "solo-room" = none ∧
    mapGet (handleLeaveRoomRooms bRooms1 "m" (some "b-room")) "b-room" =
      some { id := "b-room", participants := [], createdAt := 0,
             isActive := false } := by
  constructor
  · exact claim7_empty_room_cleanup.1 stSolo "x" (wUser "x" (some "solo-room"))
      "solo-room" (wRoom "solo-room" [wPart "x" "X" true 0] "x")
      stSoloAfter [] (by decide) (by decide) (by decide) (by decide)
      (by decide)
  · exact claim7_empty_room_cleanup.2.1 bRooms1 "m" "b-room"
      { id := "b-room", participants := ["m"], createdAt := 0,
        isActive := true } (by decide) (by decide) (by decide)

/-! ## Claim C8 -/

/-- Claim C8: an `offer`, `answer` or `ice-candidate` message whose sender
is not recorded (in the connection registry) as currently being in the
`roomId` named by the message is delivered to nobody, and no error is sent
back to the sender: the handler emits nothing at all. -/
theorem claim8_relay_unauthorized_drop (st : ServerState)
    (sid kind : String) (d : RelayData)
    (hmem : ∀ u rid, mapGet st.users sid = some u → d.roomId = some rid →
      u.currentRoom ≠ some rid) :
    relayHandler st sid kind (some d) = [] ∧
    relayHandler st sid kind none = [] := by
  refine ⟨?_, rfl⟩
  unfold relayHandler
  dsimp only
  cases ht : d.targetId with
  | none => rfl
  | some t =>
    cases hrid : d.roomId with
    | none => rfl
    | some rid =>
      dsimp only
      by_cases hguard : (t == "" || !d.hasPayload || rid == "") = true
      · rw [if_pos hguard]
      · rw [if_neg hguard]
        cases hu : mapGet st.users sid with
        | none => rfl
        | some u =>
          dsimp only
          rw [if_neg ?_]
          simp only [beq_iff_eq]
          exact hmem u rid hu hrid

/-- Witness for C8: `s1` is registered but in no room; its offer scoped to
`room-1` is dropped with no reply. -/
theorem claim8_relay_unauthorized_drop_witness :
    relayHandler stFreshJoin "s1" "offer"
      (some { targetId := some "s2", hasPayload := true,
              roomId := some "room-1" }) = [] ∧
    relayHandler stFreshJoin "s1" "offer" none = [] := by
  refine claim8_relay_unauthorized_drop stFreshJoin "s1" "offer" _ ?_
  intro u rid hu hrid
  have hu' : u = wUser "s1" none := by
    have : mapGet stFreshJoin.users "s1" = some (wUser "s1" none) := by decide
    rw [this] at hu
    exact (Option.some_inj.mp hu).symm
  rw [hu']
  simp [wUser]

/-! ## Claim C9 -/

/-- Claim C9: `validateRoomId` accepts exactly the strings of 3 to 50
characters over letters/digits/hyphen/underscore, and every `join-room`
request whose room id fails that format is answered with a single
`INVALID_ROOM_ID` join-error while the server state is returned exactly
unchanged (no room created, no membership or registry change). -/
theorem claim9_roomid_validation :
    (∀ s : String, validateRoomId (some s) = true ↔
      (3 ≤ s.length ∧ s.length ≤ 50 ∧
        ∀ c ∈ s.data, isAllowedChar c = true)) ∧
    (∀ (st : ServerState) (sid : String) (rid : Option String)
       (ui : Option UserInfo) (now : Nat), validateRoomId rid = false →
      joinRoom st sid false (some { roomId := rid, userInfo := ui }) now =
        some (st, [(sid, Payload.joinError "INVALID_ROOM_ID")])) := by
  constructor
  · intro s
    show (if s == "" then false
      else if s.length < 3 || s.length > 50 then false
      else s.data.all isAllowedChar) = true ↔ _
    by_cases h0 : (s == "") = true
    · have hs : s = "" := by simpa using h0
      subst hs
      simp
    · rw [if_neg h0]
      by_cases h1 : (s.length < 3 || s.length > 50) = true
      · rw [if_pos h1]
        simp only [Bool.or_eq_true, decide_eq_true_eq] at h1
        constructor
        · intro habs
          simp at habs
        · rintro ⟨ha, hb, -⟩
          rcases h1 with h1 | h1 <;> omega
      · rw [if_neg h1]
        simp only [Bool.or_eq_true, decide_eq_true_eq, not_or, Nat.not_lt,
          not_lt] at h1
        rw [List.all_eq_true]
        constructor
        · intro hall
          exact ⟨h1.1, h1.2, hall⟩
        · rintro ⟨-, -, hall⟩
          exact hall
  · intro st sid rid ui now hv
    unfold joinRoom
    rw [if_neg (by simp)]
    dsimp only
    cases rid with
    | none => rfl
    | some s =>
      dsimp only
      rw [if_pos (by simp [hv])]

/-- Witness for C9: the two-character id `ab` is rejected with
`INVALID_ROOM_ID` and the state is untouched. -/
theorem claim9_roomid_validation_witness :
    joinRoom stFreshJoin "u" false
      (some { roomId := some "ab", userInfo := some { name := none } }) 3 =
      some (stFreshJoin, [("u", Payload.joinError "INVALID_ROOM_ID")]) :=
  claim9_roomid_validation.2 stFreshJoin "u" (some "ab")
    (some { name := none }) 3 (by decide)

/-! ## Claim C10 -/

/-- Claim C10: a chat message from a current member of a room is broadcast
with `io.to(roomId)`, i.e. delivered once to **every** participant of the
room including the sender itself — not to the room minus the sender. -/
theorem claim10_chat_echoes_sender (st : ServerState)
    (sid rid msg msgId : String) (now : Nat) (u : User) (room : Room)
    (hrid : rid ≠ "") (hmsg : msg ≠ "") (hsan : takeString (trimString msg) 1000 ≠ "")
    (hu : mapGet st.users sid = some u) (hcr : u.currentRoom = some rid)
    (hroom : mapGet st.rooms rid = some room)
    (hmem : sid ∈ pIds room.participants) :
    chatMessage st sid (some { roomId := some rid, message := some msg })
        msgId now =
      emitToRoomAll room.participants
        (Payload.chatMessage msgId (takeString (trimString msg) 1000) sid now) ∧
    (sid, Payload.chatMessage msgId (takeString (trimString msg) 1000) sid now) ∈
      chatMessage st sid (some { roomId := some rid, message := some msg })
        msgId now ∧
    ∀ p ∈ room.participants,
      (p.id, Payload.chatMessage msgId (takeString (trimString msg) 1000) sid now) ∈
        chatMessage st sid (some { roomId := some rid, message := some msg })
          msgId now := by
  have heq : chatMessage st sid
      (some { roomId := some rid, message := some msg }) msgId now =
      emitToRoomAll room.participants
        (Payload.chatMessage msgId (takeString (trimString msg) 1000) sid now) := by
    unfold chatMessage
    dsimp only
    rw [if_neg (by simp [hrid, hmsg])]
    rw [if_neg (by simp [hsan])]
    rw [hu]
    dsimp only
    rw [if_pos (by simp [hcr])]
    rw [hroom]
  refine ⟨heq, ?_, ?_⟩
  · rw [heq]
    obtain ⟨p, hp, hpid⟩ := mem_pIds.mp hmem
    unfold emitToRoomAll
    exact List.mem_map.mpr ⟨p, hp, by rw [hpid]⟩
  · intro p hp
    rw [heq]
    unfold emitToRoomAll
    exact List.mem_map.mpr ⟨p, hp, rfl⟩

set_option maxRecDepth 2048 in
/-- Witness for C10: `b1` chats `"  hello  "` in the three-member room
`m1`; the trimmed message is delivered to `a1`, `b1` (the sender) and
`c1`. -/
theorem claim10_chat_echoes_sender_witness :
    chatMessage stTrioRoom "b1"
        (some { roomId := some "m1", message := some "  hello  " })
        "uuid-1" 9 =
      emitToRoomAll
        [wPart "a1" "A" true 0, wPart "b1" "B" false 1, wPart "c1" "C" false 2]
        (Payload.chatMessage "uuid-1" "hello" "b1" 9) ∧
    ("b1", Payload.chatMessage "uuid-1" "hello" "b1" 9) ∈
      chatMessage stTrioRoom "b1"
        (some { roomId := some "m1", message := some "  hello  " })
        "uuid-1" 9 := by
  have h := claim10_chat_echoes_sender stTrioRoom "b1" "m1" "  hello  "
    "uuid-1" 9 (wUser "b1" (some "m1"))
    (wRoom "m1" [wPart "a1" "A" true 0, wPart "b1" "B" false 1,
      wPart "c1" "C" false 2] "a1")
    (by decide) (by decide) (by decide) (by decide) (by decide) (by decide)
    (by decide)
  exact ⟨h.1, h.2.1⟩

/-! ## Claim C4 -/

/-- Counterexample to claim C4 as stated: `u` is a member of `side-room`
and asks to join `big-room`, which is at its 50-participant cap.  The
request is rejected with a structured `ROOM_FULL` join-error, but the
server state is **not** "exactly as it was": the leave-before-join step
has already removed `u` from `side-room` (deleting that now-empty room)
and cleared `u`'s current-room pointer before the capacity check runs. -/
theorem claim4_counterexample :
    joinRoom stFullRoom "u" false
        (some { roomId := some "big-room", userInfo := some { name := none } })
        0 =
      some (stFullRoomAfter, [("u", Payload.joinError "ROOM_FULL")]) ∧
    stFullRoomAfter ≠ stFullRoom ∧
    mapGet stFullRoom.users "u" = some (wUser "u" (some "side-room")) ∧
    mapGet stFullRoomAfter.users "u" = some (wUser "u" none) ∧
    mapGet stFullRoom.rooms "side-room" ≠ none ∧
    mapGet stFullRoomAfter.rooms "side-room" = none := by decide

/-- Claim C4, amended: requests failing input validation (bad room id, bad
user info) are answered with exactly one structured join-error and leave
the state exactly unchanged; a `ROOM_FULL` rejection also carries a
structured code and leaves the **target** room untouched, but the joining
connection's previous room has by then already been left (the duplicate
join case never completes at all, see C5/C6). -/
theorem claim4_join_rejection :
    (∀ (st : ServerState) (sid : String) (rid : Option String)
       (ui : Option UserInfo) (now : Nat), validateRoomId rid = false →
      joinRoom st sid false (some { roomId := rid, userInfo := ui }) now =
        some (st, [(sid, Payload.joinError "INVALID_ROOM_ID")])) ∧
    (∀ (st : ServerState) (sid rid : String) (ui : Option UserInfo)
       (now : Nat), validateRoomId (some rid) = true →
      validateUserInfo ui = false →
      joinRoom st sid false
          (some { roomId := some rid, userInfo := ui }) now =
        some (st, [(sid, Payload.joinError "INVALID_USER_INFO")])) ∧
    (∀ (st : ServerState) (sid rid : String) (ui : Option UserInfo)
       (now : Nat) (st1 : ServerState) (ems1 : List Emission) (room : Room),
      validateRoomId (some rid) = true → validateUserInfo ui = true →
      leaveCurrentRoom st sid [rid] = some (st1, ems1) →
      mapGet st1.rooms rid = some room →
      room.participants.length ≥ room.maxParticipants →
      joinRoom st sid false
          (some { roomId := some rid, userInfo := ui }) now =
        some (st1, ems1 ++ [(sid, Payload.joinError "ROOM_FULL")]) ∧
      mapGet st1.rooms rid = mapGet st.rooms rid) := by
  refine ⟨?_, ?_, ?_⟩
  · intro st sid rid ui now hv
    unfold joinRoom
    rw [if_neg (by simp)]
    dsimp only
    cases rid with
    | none => rfl
    | some s =>
      dsimp only
      rw [if_pos (by simp [hv])]
  · intro st sid rid ui now hv1 hv2
    unfold joinRoom
    rw [if_neg (by simp)]
    dsimp only
    rw [if_neg (by simp [hv1]), if_pos (by simp [hv2])]
  · intro st sid rid ui now st1 ems1 room hv1 hv2 hlv hroom hfull
    constructor
    · unfold joinRoom
      rw [if_neg (by simp)]
      dsimp only
      rw [if_neg (by simp [hv1]), if_neg (by simp [hv2]), hlv]
      dsimp only
      rw [hroom]
      dsimp only
      unfold admitToRoom
      rw [if_pos hfull]
    · exact leave_mapGet_held hlv (List.mem_singleton.mpr rfl)

/-- Witness for C4: a bad room id is rejected with no state change, and a
full room is rejected with `ROOM_FULL` while the target room is unchanged
(here the joiner was in no previous room). -/
theorem claim4_join_rejection_witness :
    joinRoom stFreshJoin "u" false
        (some { roomId := some "x", userInfo := some { name := none } }) 2 =
      some (stFreshJoin, [("u", Payload.joinError "INVALID_ROOM_ID")]) := by
  exact claim4_join_rejection.1 stFreshJoin "u" (some "x")
    (some { name := none }) 2 (by decide)

/-! ## Claim C2 -/

/-- Counterexample to claim C2 as stated: when host `a1` leaves
`{host = a1, members = [a1, b1, c1]}`, the `host-changed` broadcast goes
out with `socket.to(roomId)`, which excludes only the **leaver** — the new
host `b1` is still joined to the socket room and therefore also receives
the `host-changed` event, contradicting "sent to the remaining members
other than the new host". -/
theorem claim2_counterexample :
    leaveRoom stTrioRoom "a1" = some (stTrioAfter, emsTrio) ∧
    countTo emsTrio "b1" (Payload.isHostChangedTo "b1") = 1 := by decide

/-- Claim C2, amended: when the current host leaves and members remain,
the first remaining participant in membership order becomes host (the
room's `host` field is set to its id and its `isHost` flag becomes true),
exactly one `host-transferred` event (with `isHost: true`) is sent to the
new host and to nobody else, and exactly one `host-changed` event carrying
the new host's id is sent to **every** remaining member — the new host
included, not only the members other than the new host. -/
theorem claim2_host_handoff (st : ServerState) (sid rid : String)
    (u : User) (room : Room) (hd : Participant) (tl : List Participant)
    (st' : ServerState) (ems : List Emission)
    (hu : mapGet st.users sid = some u) (hcr : u.currentRoom = some rid)
    (hr : mapGet st.rooms rid = some room) (hhost : room.host = sid)
    (hfil : room.participants.filter (fun p => p.id != sid) = hd :: tl)
    (hnodup : (pIds (hd :: tl)).Nodup)
    (hlv : leaveRoom st sid = some (st', ems)) :
    mapGet st'.rooms rid = some { room with
      participants := { hd with isHost := true } :: tl, host := hd.id } ∧
    countTo ems hd.id Payload.isHostTransferred = 1 ∧
    (∀ r, r ≠ hd.id → countTo ems r Payload.isHostTransferred = 0) ∧
    (∀ p ∈ ({ hd with isHost := true } :: tl),
      countTo ems p.id (Payload.isHostChangedTo hd.id) = 1) := by
  unfold leaveRoom leaveCurrentRoom at hlv
  rw [hu] at hlv
  dsimp only at hlv
  rw [hcr] at hlv
  dsimp only at hlv
  rw [if_neg (List.not_mem_nil rid)] at hlv
  rw [hr] at hlv
  dsimp only at hlv
  rw [hfil] at hlv
  dsimp only at hlv
  rw [if_pos (by simp [hhost])] at hlv
  simp only [Option.some.injEq, Prod.mk.injEq] at hlv
  obtain ⟨hst, hems⟩ := hlv
  have hmem_ne : ∀ q ∈ hd :: tl, (q.id != sid) = true := by
    intro q hq
    have : q ∈ room.participants.filter (fun p => p.id != sid) :=
      hfil ▸ hq
    exact (List.mem_filter.mp this).2
  have hfil_self : (hd :: tl).filter (fun q => q.id != sid) = hd :: tl :=
    List.filter_eq_self.mpr hmem_ne
  have hfil_self2 : (({ hd with isHost := true } : Participant) :: tl).filter
      (fun q => q.id != sid) = { hd with isHost := true } :: tl := by
    apply List.filter_eq_self.mpr
    intro q hq
    rcases List.mem_cons.mp hq with rfl | hq2
    · exact hmem_ne hd (List.mem_cons_self hd tl)
    · exact hmem_ne q (List.mem_cons_of_mem hd hq2)
  have hpids2 : pIds (({ hd with isHost := true } : Participant) :: tl) =
      pIds (hd :: tl) := by
    simp [pIds]
  refine ⟨?_, ?_, ?_, ?_⟩
  · rw [← hst]
    exact mapGet_mapReplace_self _ hr
  · rw [← hems, countTo_append, countTo_append,
      countTo_emitToRoomExcept, countTo_emitToRoomExcept, countTo_single]
    simp [Payload.isHostTransferred, Payload.isHostChangedTo]
  · intro r hrne
    rw [← hems, countTo_append, countTo_append,
      countTo_emitToRoomExcept, countTo_emitToRoomExcept, countTo_single]
    simp [Payload.isHostTransferred, Payload.isHostChangedTo,
      Ne.symm hrne]
  · intro p hp
    rw [← hems, countTo_append, countTo_append,
      countTo_emitToRoomExcept, countTo_emitToRoomExcept, countTo_single]
    have hlen : ((({ hd with isHost := true } : Participant) :: tl).filter
        (fun q => q.id != sid)).filter (fun q => q.id == p.id) =
        (({ hd with isHost := true } : Participant) :: tl).filter
          (fun q => q.id == p.id) := by
      rw [hfil_self2]
    rw [hlen]
    have hcount : ((({ hd with isHost := true } : Participant) :: tl).filter
        (fun q => q.id == p.id)).length = 1 := by
      apply length_filter_id_one
      · rw [hpids2]
        exact hnodup
      · rw [hpids2]
        have : p.id ∈ pIds (({ hd with isHost := true } : Participant) :: tl) :=
          mem_pIds.mpr ⟨p, hp, rfl⟩
        rwa [hpids2] at this
    simp only [Payload.isHostTransferred, Payload.isHostChangedTo,
      Payload.isUserJoinedOf]
    simp [hcount]

/-- Witness for C2: host `a1` leaves the three-member room `m1`; `b1`
(first remaining) becomes host, gets the only `host-transferred`, and both
`b1` and `c1` get one `host-changed` naming `b1`. -/
theorem claim2_host_handoff_witness :
    mapGet stTrioAfter.rooms "m1" = some
      { id := "m1",
        participants := [wPart "b1" "B" true 1, wPart "c1" "C" false 2],
        host := "b1", createdAt := 0, maxParticipants := 50,
        lastActivity := 0 } ∧
    countTo emsTrio "b1" Payload.isHostTransferred = 1 ∧
    countTo emsTrio "c1" Payload.isHostTransferred = 0 ∧
    countTo emsTrio "c1" (Payload.isHostChangedTo "b1") = 1 := by
  have h := claim2_host_handoff stTrioRoom "a1" "m1"
    (wUser "a1" (some "m1"))
    (wRoom "m1" [wPart "a1" "A" true 0, wPart "b1" "B" false 1,
      wPart "c1" "C" false 2] "a1")
    (wPart "b1" "B" false 1) [wPart "c1" "C" false 2]
    stTrioAfter emsTrio
    (by decide) (by decide) (by decide) (by decide) (by decide) (by decide)
    (by decide)
  exact ⟨h.1, h.2.1, h.2.2.1 "c1" (by decide),
    h.2.2.2 (wPart "c1" "C" false 2) (by simp)⟩

/-! ## Claim C3 -/

/-- Claim C3: a successful join of `sid` into an existing room delivers
exactly one `joined-room` event to the joiner, whose
`existingParticipants` list is exactly the pre-join membership (the
members other than the joiner); every existing member gets exactly one
`user-joined` event for the joiner; the joiner never receives a
`user-joined` for its own join; and no existing member receives a
`joined-room` event. -/
theorem claim3_join_notifications (st : ServerState) (sid rid : String)
    (ui : UserInfo) (now : Nat) (st1 : ServerState) (ems1 : List Emission)
    (room : Room) (st' : ServerState) (ems : List Emission)
    (hvr : validateRoomId (some rid) = true)
    (hvu : validateUserInfo (some ui) = true)
    (hlv : leaveCurrentRoom st sid [rid] = some (st1, ems1))
    (hroom : mapGet st1.rooms rid = some room)
    (hcap : room.participants.length < room.maxParticipants)
    (hnotin : ∀ p ∈ room.participants, p.id ≠ sid)
    (hnodup : (pIds room.participants).Nodup)
    (hjoin : joinRoom st sid false
        (some { roomId := some rid, userInfo := some ui }) now =
      some (st', ems)) :
    countTo ems sid Payload.isJoinedRoom = 1 ∧
    (∀ e ∈ ems, e.1 = sid → Payload.isJoinedRoom e.2 = true →
      ∃ part cnt hostId, part.id = sid ∧
        e.2 = Payload.joinedRoom rid part hostId cnt room.participants) ∧
    (∀ p ∈ room.participants,
      countTo ems p.id (Payload.isUserJoinedOf sid) = 1) ∧
    countTo ems sid (Payload.isUserJoinedOf sid) = 0 ∧
    (∀ p ∈ room.participants, countTo ems p.id Payload.isJoinedRoom = 0) := by
  unfold joinRoom at hjoin
  rw [if_neg (by simp)] at hjoin
  dsimp only at hjoin
  rw [if_neg (by simp [hvr]), if_neg (by simp [hvu]), hlv] at hjoin
  dsimp only at hjoin
  rw [hroom] at hjoin
  dsimp only at hjoin
  simp only [Option.some.injEq] at hjoin
  unfold admitToRoom at hjoin
  rw [if_neg (by omega)] at hjoin
  have hfind : room.participants.find? (fun p => p.id == sid) = none :=
    List.find?_eq_none.mpr (fun p hp => by simp [hnotin p hp])
  rw [if_neg (by simp [hfind])] at hjoin
  dsimp only at hjoin
  simp only [Prod.mk.injEq] at hjoin
  obtain ⟨hst, hems⟩ := hjoin
  have hfilter : ∀ q : Participant, q.id = sid →
      (room.participants ++ [q]).filter (fun p => p.id != sid) =
        room.participants := by
    intro q hq
    rw [List.filter_append]
    have h1 : room.participants.filter (fun p => p.id != sid) =
        room.participants :=
      List.filter_eq_self.mpr (fun p hp => by simp [hnotin p hp])
    have h2 : [q].filter (fun p => p.id != sid) = [] := by
      simp [List.filter, hq]
    rw [h1, h2, List.append_nil]
  rw [hfilter _ rfl] at hems
  have hkinds := leave_ems_kinds hlv
  have hA1 : ∀ r, countTo ems1 r Payload.isJoinedRoom = 0 := fun r =>
    countTo_zero_of_all ems1 r _ (fun e he => (hkinds e he).1)
  have hA2 : ∀ r, countTo ems1 r (Payload.isUserJoinedOf sid) = 0 := fun r =>
    countTo_zero_of_all ems1 r _ (fun e he => (hkinds e he).2 sid)
  subst hems
  refine ⟨?_, ?_, ?_, ?_, ?_⟩
  · rw [countTo_append, countTo_append, hA1, countTo_single,
      countTo_emitToRoomExcept]
    rw [hfilter _ rfl, filter_id_eq_nil (fun habs => by
      obtain ⟨p, hp, hpid⟩ := mem_pIds.mp habs
      exact hnotin p hp hpid)]
    simp [Payload.isJoinedRoom]
  · intro e he hesid hejoined
    rcases List.mem_append.mp he with he1 | he2
    · rcases List.mem_append.mp he1 with ha | hb
      · rw [(hkinds e ha).1] at hejoined
        cases hejoined
      · have hx := List.mem_singleton.mp hb
        exact ⟨⟨sid, participantName ui sid,
          room.participants.length == 0 || sid == room.host, now⟩,
          _, _, rfl, by rw [hx]⟩
    · rw [emitToRoomExcept_snd he2] at hejoined
      cases hejoined
  · intro p hp
    rw [countTo_append, countTo_append, hA2, countTo_single,
      countTo_emitToRoomExcept]
    rw [hfilter _ rfl]
    have hone : (room.participants.filter
        (fun q => q.id == p.id)).length = 1 :=
      length_filter_id_one hnodup (mem_pIds.mpr ⟨p, hp, rfl⟩)
    simp [Payload.isUserJoinedOf, Payload.isJoinedRoom, hone]
  · rw [countTo_append, countTo_append, hA2, countTo_single,
      countTo_emitToRoomExcept]
    rw [hfilter _ rfl, filter_id_eq_nil (fun habs => by
      obtain ⟨p, hp, hpid⟩ := mem_pIds.mp habs
      exact hnotin p hp hpid)]
    simp [Payload.isUserJoinedOf]
  · intro p hp
    rw [countTo_append, countTo_append, hA1, countTo_single,
      countTo_emitToRoomExcept]
    have hpid : (sid == p.id) = false := by
      simp [Ne.symm (hnotin p hp)]
    rw [hfilter _ rfl]
    simp [Payload.isJoinedRoom, hpid]

/-- Witness for C3: `s2` joins `room-1` already containing `s1`: one
`joined-room` to `s2` (listing only `s1`), one `user-joined` to `s1`, no
`user-joined` to `s2`, no `joined-room` to `s1`. -/
theorem claim3_join_notifications_witness :
    countTo emsJoinSolo "s2" Payload.isJoinedRoom = 1 ∧
    countTo emsJoinSolo "s1" (Payload.isUserJoinedOf "s2") = 1 ∧
    countTo emsJoinSolo "s2" (Payload.isUserJoinedOf "s2") = 0 ∧
    countTo emsJoinSolo "s1" Payload.isJoinedRoom = 0 := by
  have h := claim3_join_notifications stSoloRoom "s2" "room-1"
    { name := none } 4 stSoloRoom []
    (wRoom "room-1" [wPart "s1" "User s1" true 0] "s1")
    stSoloRoomAfterJoin emsJoinSolo
    (by decide) (by decide) (by decide) (by decide) (by decide) (by decide)
    (by decide) (by decide)
  exact ⟨h.1, h.2.2.1 (wPart "s1" "User s1" true 0) (by decide),
    h.2.2.2.1, h.2.2.2.2 (wPart "s1" "User s1" true 0) (by decide)⟩
